import Mathlib

/-!
Verification of the comment-flattening, comment-resolution, report-merge and
highlight logic of `jira-ticket-monitor.py`.

The script manipulates JSON values fetched from the tracker.  We embed the
JSON fragment the script touches as the inductive `JVal` (strings, integers,
null, arrays, objects-as-association-lists) and the Python exceptions the
script can raise or catch as `PyErr`.
-/

namespace JiraMonitor

/-- JSON-like values as handled by the script (comment bodies, issue fields). -/
inductive JVal where
  | str : String → JVal
  | num : Int → JVal
  | null : JVal
  | list : List JVal → JVal
  | obj : List (String × JVal) → JVal

/-- The Python exception classes relevant to `fetch_comments`:
`KeyError` (caught by the per-comment handler, carries the missing key),
`TypeError` and `ValueError` (both uncaught; `ValueError` is what
`datetime.strptime` raises, carrying the offending string). -/
inductive PyErr where
  | keyError : String → PyErr
  | typeError : PyErr
  | valueError : String → PyErr
deriving DecidableEq

/-- Dictionary key lookup (first binding wins, as in a Python dict). -/
def lookupField : List (String × JVal) → String → Option JVal
  | [], _ => none
  | (k, v) :: rest, key => if k = key then some v else lookupField rest key

/-- Python `v == 'lit'` for an arbitrary JSON value `v` and a string literal:
true exactly when `v` is that string. -/
def isStrEq (v : JVal) (s : String) : Bool :=
  match v with
  | JVal.str t => t = s
  | _ => false

/-- Python's `str()` on the values the script feeds into f-strings.
Leaves render as themselves (`str` of a string, decimal of an int,
`"None"` for null); the container cases abbreviate Python's repr, which no
code path of the embedded script reaches with a container argument. -/
def pyStr : JVal → String
  | JVal.str s => s
  | JVal.num n => toString n
  | JVal.null => "None"
  | JVal.list _ => "[...]"
  | JVal.obj _ => "\x7b...\x7d"

mutual

/-- `extract_text` (lines 73-89): recursively flatten a content tree.
A Python list joins the extraction of its items; a non-dict non-list leaf
returns `str(content)`; a dict dispatches on `content['type']` (raising
`KeyError` when the key is absent), handling `text` / `mention` /
`hardBreak`, and otherwise recursing into `content['content']` when that
key exists, else returning `""`. -/
def extract_text : JVal → Except PyErr String
  | JVal.str s => Except.ok s
  | JVal.num n => Except.ok (toString n)
  | JVal.null => Except.ok "None"
  | JVal.list items => extract_list items
  | JVal.obj fields =>
    match lookupField fields "type" with
    | none => Except.error (PyErr.keyError "type")
    | some t =>
      if isStrEq t "text" then
        match lookupField fields "text" with
        | none => Except.error (PyErr.keyError "text")
        | some v => Except.ok (pyStr v)
      else if isStrEq t "mention" then
        match lookupField fields "attrs" with
        | none => Except.error (PyErr.keyError "attrs")
        | some (JVal.obj attrs) =>
          match lookupField attrs "text" with
          | none => Except.error (PyErr.keyError "text")
          | some v => Except.ok (pyStr v)
        | some _ => Except.error PyErr.typeError
      else if isStrEq t "hardBreak" then Except.ok "\n"
      else extract_content fields
termination_by structural v => v

/-- The `elif 'content' in content` fallback of `extract_text`: walk the
object's fields for the first `"content"` binding and apply `extract_iter`
to its value.  No `"content"` field yields `""`. -/
def extract_content : List (String × JVal) → Except PyErr String
  | [] => Except.ok ""
  | (k, v) :: rest =>
    if k = "content" then extract_iter v else extract_content rest
termination_by structural l => l

/-- `''.join(extract_text(item) for item in content['content'])`: join the
extraction of what Python iterates over: the items of a list, the characters
of a string (each a 1-char string, extracting to itself), the keys of a
dict; other values are not iterable (`TypeError`). -/
def extract_iter : JVal → Except PyErr String
  | JVal.list items => extract_list items
  | JVal.str s => Except.ok s
  | JVal.obj fs => Except.ok (String.join (fs.map Prod.fst))
  | _ => Except.error PyErr.typeError
termination_by structural v => v

/-- `''.join(extract_text(item) for item in content)`: extract each item in
order, concatenating; the first exception propagates. -/
def extract_list : List JVal → Except PyErr String
  | [] => Except.ok ""
  | v :: rest =>
    match extract_text v with
    | Except.error e => Except.error e
    | Except.ok s =>
      match extract_list rest with
      | Except.error e => Except.error e
      | Except.ok t => Except.ok (s ++ t)
termination_by structural l => l

end

/-! ### Calendar arithmetic

`datetime` values are embedded as seconds since the Unix epoch (`Int`).
The civil-calendar conversions implement the proleptic Gregorian calendar
that `datetime` uses. -/

/-- Gregorian leap-year rule. -/
def isLeapYear (y : Int) : Bool := (y % 4 == 0 && y % 100 != 0) || y % 400 == 0

/-- Length of a month, as `datetime` validates day-of-month. -/
def daysInMonth (y m : Int) : Int :=
  if m = 2 then (if isLeapYear y then 29 else 28)
  else if m = 4 ∨ m = 6 ∨ m = 9 ∨ m = 11 then 30
  else 31

/-- Days since 1970-01-01 of a civil date (proleptic Gregorian). -/
def daysFromCivil (y m d : Int) : Int :=
  let y' := if m ≤ 2 then y - 1 else y
  let era := Int.fdiv y' 400
  let yoe := y' - era * 400
  let mp := if m ≤ 2 then m + 9 else m - 3
  let doy := (153 * mp + 2) / 5 + d - 1
  let doe := yoe * 365 + yoe / 4 - yoe / 100 + doy
  era * 146097 + doe - 719468

/-- Civil date `(year, month, day)` of a day count since 1970-01-01. -/
def civilFromDays (z : Int) : Int × Int × Int :=
  let z' := z + 719468
  let era := Int.fdiv z' 146097
  let doe := z' - era * 146097
  let yoe := (doe - doe / 1460 + doe / 36524 - doe / 146096) / 365
  let y := yoe + era * 400
  let doy := doe - (365 * yoe + yoe / 4 - yoe / 100)
  let mp := (5 * doy + 2) / 153
  let d := doy - (153 * mp + 2) / 5 + 1
  let m := if mp < 10 then mp + 3 else mp - 9
  (if m ≤ 2 then y + 1 else y, m, d)

/-- Value of a decimal digit character. -/
def digitVal (c : Char) : Option Nat :=
  if c.isDigit then some (c.toNat - 48) else none

/-- Two decimal digits. -/
def digits2 (a b : Char) : Option Nat := do
  let x ← digitVal a
  let y ← digitVal b
  pure (10 * x + y)

/-- Four decimal digits. -/
def digits4 (a b c d : Char) : Option Nat := do
  let x ← digits2 a b
  let y ← digits2 c d
  pure (100 * x + y)

/-- Epoch seconds of a validated civil date-time, mirroring the checks the
`datetime` constructor performs after `strptime`'s regex match: year ≥ 1,
month 1-12, day within the month, hour ≤ 23, minute and second ≤ 59. -/
def civilSeconds (y m d hh nn ss : Nat) : Option Int :=
  if 1 ≤ y ∧ 1 ≤ m ∧ m ≤ 12 ∧ 1 ≤ d ∧ (d : Int) ≤ daysInMonth (y : Int) (m : Int)
      ∧ hh ≤ 23 ∧ nn ≤ 59 ∧ ss ≤ 59 then
    some (daysFromCivil (y : Int) (m : Int) (d : Int) * 86400
      + (hh : Int) * 3600 + (nn : Int) * 60 + (ss : Int))
  else none

/-- `datetime.strptime(s, '%Y-%m-%d %H:%M:%S')` on the zero-padded strings the
script itself produces with `strftime`: exactly `YYYY-MM-DD HH:MM:SS`,
validated as `datetime` does.  Yields naive epoch seconds. -/
def parseLocalTimestamp (s : String) : Option Int :=
  match s.toList with
  | [y1, y2, y3, y4, '-', m1, m2, '-', d1, d2, ' ', h1, h2, ':', n1, n2, ':', p1, p2] => do
    let y ← digits4 y1 y2 y3 y4
    let m ← digits2 m1 m2
    let d ← digits2 d1 d2
    let hh ← digits2 h1 h2
    let nn ← digits2 n1 n2
    let ss ← digits2 p1 p2
    civilSeconds y m d hh nn ss
  | _ => none

/-- The `%z` offset in the form Jira emits (`±HHMM`, or `Z`), in seconds. -/
def parseTzOffset : List Char → Option Int
  | ['Z'] => some 0
  | ['+', a, b, c, d] => do
    let hh ← digits2 a b
    let mm ← digits2 c d
    if hh ≤ 23 ∧ mm ≤ 59 then pure ((hh : Int) * 3600 + (mm : Int) * 60) else none
  | ['-', a, b, c, d] => do
    let hh ← digits2 a b
    let mm ← digits2 c d
    if hh ≤ 23 ∧ mm ≤ 59 then pure (-((hh : Int) * 3600 + (mm : Int) * 60)) else none
  | _ => none

/-- `datetime.strptime(s, '%Y-%m-%dT%H:%M:%S.%f%z')` on Jira's timestamps:
zero-padded date and time, a fraction of 1-6 digits (dropped: nothing
downstream renders sub-second precision) and a UTC offset.  Yields aware
epoch seconds (UTC). -/
def parseJiraTimestamp (s : String) : Option Int :=
  match s.toList with
  | y1 :: y2 :: y3 :: y4 :: '-' :: m1 :: m2 :: '-' :: d1 :: d2 :: 'T'
      :: h1 :: h2 :: ':' :: n1 :: n2 :: ':' :: p1 :: p2 :: '.' :: rest => do
    let frac := rest.takeWhile Char.isDigit
    let tzPart := rest.dropWhile Char.isDigit
    if 1 ≤ frac.length ∧ frac.length ≤ 6 then
      let off ← parseTzOffset tzPart
      let y ← digits4 y1 y2 y3 y4
      let m ← digits2 m1 m2
      let d ← digits2 d1 d2
      let hh ← digits2 h1 h2
      let nn ← digits2 n1 n2
      let ss ← digits2 p1 p2
      let naive ← civilSeconds y m d hh nn ss
      pure (naive - off)
    else none
  | _ => none

/-- Zero-pad to two digits (`strftime` `%m`/`%d`/`%H`/`%M`/`%S`). -/
def pad2 (n : Int) : String := if n < 10 then "0" ++ toString n else toString n

/-- Zero-pad to four digits (`strftime` `%Y`). -/
def pad4 (n : Int) : String :=
  if n < 10 then "000" ++ toString n
  else if n < 100 then "00" ++ toString n
  else if n < 1000 then "0" ++ toString n
  else toString n

/-- `.strftime('%Y-%m-%d %H:%M:%S')` of an epoch-seconds instant. -/
def formatTime (secs : Int) : String :=
  let days := Int.fdiv secs 86400
  let sod := secs - days * 86400
  match civilFromDays days with
  | (y, m, d) =>
    pad4 y ++ "-" ++ pad2 m ++ "-" ++ pad2 d ++ " "
      ++ pad2 (sod / 3600) ++ ":" ++ pad2 (sod % 3600 / 60) ++ ":" ++ pad2 (sod % 60)

/-! ### Comment resolution (`fetch_comments`, lines 60-111)

The network fetch is an external collaborator: the model receives the
comment collection the tracker would return for each issue key (`net`), and
reports how many underlying fetches a call performed.  `tz` is the local
UTC offset in seconds that `astimezone()` applies. -/

/-- Python `d[key]` on a JSON value: `KeyError` for a missing key on a dict,
`TypeError` when string-indexing a non-dict. -/
def pyIndex : JVal → String → Except PyErr JVal
  | JVal.obj fields, key =>
    match lookupField fields key with
    | some v => Except.ok v
    | none => Except.error (PyErr.keyError key)
  | _, _ => Except.error PyErr.typeError

/-- `datetime.strptime(created_time, '%Y-%m-%dT%H:%M:%S.%f%z')`:
`TypeError` on a non-string argument, `ValueError` when the string does not
match the format. -/
def strptimeJira : JVal → Except PyErr Int
  | JVal.str s =>
    match parseJiraTimestamp s with
    | some t => Except.ok t
    | none => Except.error (PyErr.valueError s)
  | _ => Except.error PyErr.typeError

/-- The body of the per-comment `try` block (lines 93-103): look up
`comment['updateAuthor']['displayName']`, `comment['created']`,
`comment['body']['content']`, flatten the body, parse the created time,
convert it to local time and render
`"**[<local time>, <author>]**\n<body>"`. -/
def tryRender (tz : Int) (comment : JVal) : Except PyErr String := do
  let ua ← pyIndex comment "updateAuthor"
  let author ← pyIndex ua "displayName"
  let created ← pyIndex comment "created"
  let body ← pyIndex comment "body"
  let bodyContent ← pyIndex body "content"
  let commentBody ← extract_text bodyContent
  let t ← strptimeJira created
  pure ("**[" ++ formatTime (t + tz) ++ ", " ++ pyStr author ++ "]**\n" ++ commentBody)

/-- One iteration of the comment loop: `except (KeyError, IndexError)`
replaces the comment with the visible placeholder
`f"Error parsing comment: {str(e)}"` (for `KeyError` that is the quoted
key); any other exception propagates. -/
def processComment (tz : Int) (comment : JVal) : Except PyErr String :=
  match tryRender tz comment with
  | Except.ok s => Except.ok s
  | Except.error (PyErr.keyError k) =>
    Except.ok ("Error parsing comment: '" ++ k ++ "'")
  | Except.error e => Except.error e

/-- The comment loop over the selected window: collect the rendered or
placeholder strings in order; an uncaught exception aborts the loop (the
partially built list is discarded). -/
def processList (tz : Int) : List JVal → Except PyErr (List String)
  | [] => Except.ok []
  | c :: rest =>
    match processComment tz c with
    | Except.error e => Except.error e
    | Except.ok s =>
      match processList tz rest with
      | Except.error e => Except.error e
      | Except.ok ss => Except.ok (s :: ss)

/-- Python `l[-n:]` for a non-negative `n`: the trailing `min n l.length`
elements, except that `l[-0:]` is the whole list. -/
def pyTakeLast (n : Nat) (l : List α) : List α :=
  if n = 0 then l else l.drop (l.length - n)

/-- The process-wide `comments_cache` dict, keyed by issue key. -/
abbrev Cache := List (String × List String)

/-- Cache lookup (`issue_key in comments_cache` / `comments_cache[issue_key]`). -/
def cacheLookup : Cache → String → Option (List String)
  | [], _ => none
  | (k, v) :: rest, key => if k = key then some v else cacheLookup rest key

/-- `comments_cache[issue_key] = comments_list`; the key is absent when this
runs, so prepending is lookup-equivalent to dict assignment. -/
def cacheInsert (cache : Cache) (key : String) (v : List String) : Cache :=
  (key, v) :: cache

/-- `fetch_comments(issue_key)` (lines 60-111): return the cached list when
present (no fetch); otherwise fetch the comment collection, process the
trailing `RECENT_COMMENTS_COUNT` entries in reversed order
(`comments_data[-RECENT_COMMENTS_COUNT:][::-1]`), store the result in the
cache and return it.  An uncaught exception propagates before the cache
assignment runs.  The result is `(cache after the call, number of
underlying fetches performed, outcome)`. -/
def fetch_comments (n : Nat) (tz : Int) (net : String → List JVal)
    (cache : Cache) (key : String) : Cache × Nat × Except PyErr (List String) :=
  match cacheLookup cache key with
  | some cs => (cache, 0, Except.ok cs)
  | none =>
    match processList tz ((pyTakeLast n (net key)).reverse) with
    | Except.error e => (cache, 1, Except.error e)
    | Except.ok cs => (cacheInsert cache key cs, 1, Except.ok cs)

/-! ### Report merge (`create_excel`, lines 193-209)

A sheet's data rows (rows 3.. of the worksheet) are modeled as a list of
ten-column rows in order; the Excel reader/writer is the external sink.
The new rows are built at line 184 as
`[issue_key, summary, assignee, status, priority, local_update_time,
sensor_issue_category, gerrit_id, combined_comments, ""]`. -/

/-- One report row: the ten columns written by `create_excel`. -/
structure Row where
  key : String
  summary : String
  assignee : String
  rowStatus : String
  priority : String
  updateTime : String
  category : String
  gerritId : String
  comments : String
  remark : String
deriving DecidableEq

/-- The found-branch overwrite (lines 201-205): columns 2-9 take the new
row's values (`str` of a string is itself); column 1 (the matched key) and
column 10 (the remark) are not written. -/
def overwriteRow (old new : Row) : Row :=
  { key := old.key
    summary := new.summary
    assignee := new.assignee
    rowStatus := new.rowStatus
    priority := new.priority
    updateTime := new.updateTime
    category := new.category
    gerritId := new.gerritId
    comments := new.comments
    remark := old.remark }

/-- The append branch (lines 206-209): columns 1-9 are written at a fresh
row, column 10 is never written, so the appended row's remark is empty. -/
def appendedRow (new : Row) : Row := { new with remark := "" }

/-- Merge one new row (lines 197-209): scan the existing rows in order for
the first one whose column-1 value equals the new row's key; overwrite it
in place (and `break`) when found, else append at the end. -/
def mergeRow : List Row → Row → List Row
  | [], new => [appendedRow new]
  | r :: rs, new =>
    if r.key = new.key then overwriteRow r new :: rs
    else r :: mergeRow rs new

/-- The whole merge loop `for row in rows:` over the projected rows. -/
def mergeRows (table : List Row) (news : List Row) : List Row :=
  news.foldl mergeRow table

/-! ### Recency highlighting (`create_excel`, lines 223-237)

For each comment (a `"\n\n"`-separated piece of the combined cell text)
containing both `"**["` and `"]**"`, the header timestamp is re-parsed with
`'%Y-%m-%d %H:%M:%S'`; on success the comment is highlighted exactly when
`(datetime.now(comment_time.tzinfo) - comment_time).days <= HIGHLIGHT_DAYS`
(`timedelta.days` is floor division of the elapsed seconds by 86400);
a parse failure leaves the comment unhighlighted.  `now` is the current
naive local time in epoch seconds. -/

/-- Python `s.split(sep)` scanning loop for a non-empty separator: leftmost
non-overlapping matches.  `fuel` bounds the recursion (one unit per consumed
character); callers pass more fuel than the string's length, so the
exhaustion branch is unreachable. -/
def pySplitAux (sep : List Char) : Nat → List Char → List Char → List (List Char)
  | 0, rest, acc => [acc.reverse ++ rest]
  | fuel + 1, chars, acc =>
    match chars with
    | [] => [acc.reverse]
    | c :: rest =>
      if List.isPrefixOf sep (c :: rest) then
        acc.reverse :: pySplitAux sep fuel (List.drop sep.length (c :: rest)) []
      else pySplitAux sep fuel rest (c :: acc)

/-- Python `s.split(sep)` for the non-empty literal separators the script
uses (`"**["`, `", "`, `"\n\n"`). -/
def pySplit (s sep : String) : List String :=
  (pySplitAux sep.toList (s.toList.length + 1) s.toList []).map String.mk

/-- The header timestamp of one rendered comment, when the guards hold and
it parses: `comment.split("**[")[1].split(", ")[0]` fed to `strptime`. -/
def parseHeaderTime (comment : String) : Option Int :=
  if 2 ≤ (pySplit comment "**[").length ∧ 2 ≤ (pySplit comment "]**").length then
    parseLocalTimestamp ((pySplit ((pySplit comment "**[").getD 1 "") ", ").getD 0 "")
  else none

/-- Whether lines 223-237 mark one comment's span for the highlight color. -/
def highlightDecision (now hlDays : Int) (comment : String) : Bool :=
  match parseHeaderTime comment with
  | some t => decide (Int.fdiv (now - t) 86400 ≤ hlDays)
  | none => false

/-- The tag strings `extract_text` recognizes with a dedicated branch. -/
def isRecognizedTag (t : JVal) : Bool :=
  isStrEq t "text" || isStrEq t "mention" || isStrEq t "hardBreak"

/-- Whether a per-comment outcome is a success (rendered or placeholder). -/
def isOkB : Except PyErr String → Bool
  | Except.ok _ => true
  | Except.error _ => false

/-- Whether a per-comment render failed with the caught `KeyError` class
(a missing required field). -/
def isKeyErrB : Except PyErr String → Bool
  | Except.error (PyErr.keyError _) => true
  | _ => false

/-- Whether a per-comment render failed with the uncaught `ValueError`
(an unparseable timestamp string). -/
def isValueErrB : Except PyErr String → Bool
  | Except.error (PyErr.valueError _) => true
  | _ => false

/-- The entry the comment loop produces for one comment when no uncaught
exception occurs: the normal render on success, the visible placeholder on a
missing field. -/
def entryOf (tz : Int) (c : JVal) : String :=
  match tryRender tz c with
  | Except.ok s => s
  | Except.error (PyErr.keyError k) => "Error parsing comment: '" ++ k ++ "'"
  | Except.error _ => ""

/-- A well-formed comment record, used by concrete test inputs. -/
def sampleComment (author created bodyText : String) : JVal :=
  JVal.obj [("updateAuthor", JVal.obj [("displayName", JVal.str author)]),
    ("created", JVal.str created),
    ("body", JVal.obj [("content", JVal.str bodyText)])]

/-! ## Shared helper lemmas -/

theorem str_append_empty (s : String) : s ++ "" = s := by
  cases s with
  | mk data => show String.mk (data ++ []) = String.mk data; rw [List.append_nil]

theorem extract_list_pair (A B : JVal) (a b : String)
    (hA : extract_text A = Except.ok a) (hB : extract_text B = Except.ok b) :
    extract_list [A, B] = Except.ok (a ++ b) := by
  simp [extract_list, hA, hB, str_append_empty]

theorem extract_content_cons (k : String) (v : JVal) (rest : List (String × JVal)) :
    extract_content ((k, v) :: rest) =
      if k = "content" then extract_iter v else extract_content rest := by
  rw [extract_content]

theorem extract_text_obj_some (fields : List (String × JVal)) (t : JVal)
    (h : lookupField fields "type" = some t) :
    extract_text (JVal.obj fields) =
      (if isStrEq t "text" then
        match lookupField fields "text" with
        | none => Except.error (PyErr.keyError "text")
        | some v => Except.ok (pyStr v)
      else if isStrEq t "mention" then
        match lookupField fields "attrs" with
        | none => Except.error (PyErr.keyError "attrs")
        | some (JVal.obj attrs) =>
          match lookupField attrs "text" with
          | none => Except.error (PyErr.keyError "text")
          | some v => Except.ok (pyStr v)
        | some _ => Except.error PyErr.typeError
      else if isStrEq t "hardBreak" then Except.ok "\n"
      else extract_content fields) := by
  rw [extract_text, h]

theorem extract_content_of_no_content (fields : List (String × JVal))
    (h : lookupField fields "content" = none) : extract_content fields = Except.ok "" := by
  induction fields with
  | nil => rfl
  | cons p rest ih =>
    obtain ⟨k, v⟩ := p
    rw [extract_content_cons]
    by_cases hk : k = "content"
    · simp only [lookupField, if_pos hk] at h
      exact absurd h (by simp)
    · simp only [lookupField, if_neg hk] at h
      rw [if_neg hk]
      exact ih h

theorem entryOf_of_tryRender_ok (tz : Int) (c : JVal) (s : String)
    (h : tryRender tz c = Except.ok s) : entryOf tz c = s := by
  unfold entryOf
  rw [h]

theorem entryOf_of_tryRender_keyError (tz : Int) (c : JVal) (k : String)
    (h : tryRender tz c = Except.error (PyErr.keyError k)) :
    entryOf tz c = "Error parsing comment: '" ++ k ++ "'" := by
  unfold entryOf
  rw [h]

theorem processComment_ok_entry (tz : Int) (c : JVal)
    (h : isOkB (processComment tz c) = true) :
    processComment tz c = Except.ok (entryOf tz c) := by
  cases htr : tryRender tz c with
  | ok s => unfold processComment entryOf; rw [htr]
  | error e =>
    cases e with
    | keyError k => unfold processComment entryOf; rw [htr]
    | typeError =>
      unfold processComment at h
      rw [htr] at h
      simp [isOkB] at h
    | valueError s =>
      unfold processComment at h
      rw [htr] at h
      simp [isOkB] at h

theorem processList_all_ok (tz : Int) (l : List JVal)
    (h : ∀ c ∈ l, isOkB (processComment tz c) = true) :
    processList tz l = Except.ok (l.map (entryOf tz)) := by
  induction l with
  | nil => rfl
  | cons c rest ih =>
    have hc := processComment_ok_entry tz c (h c (List.mem_cons_self c rest))
    have hr := ih (fun x hx => h x (List.mem_cons_of_mem c hx))
    simp only [processList, hc, hr, List.map_cons]

theorem processList_error_of_mem (tz : Int) (l : List JVal) (c : JVal) (hc : c ∈ l)
    (he : ∃ e, processComment tz c = Except.error e) :
    ∃ e, processList tz l = Except.error e := by
  induction l with
  | nil => cases hc
  | cons d rest ih =>
    cases hpd : processComment tz d with
    | error e => exact ⟨e, by simp only [processList, hpd]⟩
    | ok s =>
      rcases List.mem_cons.mp hc with rfl | hmem
      · obtain ⟨e, he⟩ := he
        rw [hpd] at he
        exact absurd he (by simp)
      · obtain ⟨e, hpe⟩ := ih hmem
        exact ⟨e, by simp only [processList, hpd, hpe]⟩

theorem processComment_error_of_valueErr (tz : Int) (c : JVal)
    (h : isValueErrB (tryRender tz c) = true) :
    ∃ e, processComment tz c = Except.error e := by
  cases htr : tryRender tz c with
  | ok s => rw [htr] at h; simp [isValueErrB] at h
  | error e =>
    cases e with
    | keyError k => rw [htr] at h; simp [isValueErrB] at h
    | typeError => rw [htr] at h; simp [isValueErrB] at h
    | valueError s =>
      refine ⟨PyErr.valueError s, ?_⟩
      unfold processComment
      rw [htr]

/-! ## Claims -/

/-- C6: for all content trees `A` and `B`, flattening a container node whose
ordered children are `[A, B]` — whether the bare child sequence or a tagged
container object — equals the flattening of `A` concatenated with the
flattening of `B`. -/
theorem extract_text_container_concat (A B : JVal) (a b : String)
    (hA : extract_text A = Except.ok a) (hB : extract_text B = Except.ok b) :
    extract_text (JVal.list [A, B]) = Except.ok (a ++ b)
      ∧ extract_text (JVal.obj [("type", JVal.str "container"),
          ("content", JVal.list [A, B])]) = Except.ok (a ++ b) := by
  refine ⟨?_, ?_⟩
  · rw [extract_text]
    exact extract_list_pair A B a b hA hB
  · rw [extract_text]
    simp only [lookupField, extract_content, if_pos, if_neg, reduceIte]
    exact extract_list_pair A B a b hA hB

/-- C6 witness: the container of a text node and a hard break flattens to the
concatenation of their flattenings. -/
theorem extract_text_container_concat_witness :
    extract_text (JVal.obj [("type", JVal.str "text"), ("text", JVal.str "hi")])
        = Except.ok "hi"
      ∧ extract_text (JVal.obj [("type", JVal.str "hardBreak")]) = Except.ok "\n"
      ∧ extract_text (JVal.list [JVal.obj [("type", JVal.str "text"), ("text", JVal.str "hi")],
          JVal.obj [("type", JVal.str "hardBreak")]]) = Except.ok ("hi" ++ "\n") :=
  ⟨rfl, rfl,
    (extract_text_container_concat
      (JVal.obj [("type", JVal.str "text"), ("text", JVal.str "hi")])
      (JVal.obj [("type", JVal.str "hardBreak")]) "hi" "\n" rfl rfl).1⟩

/-- C7 counterexample: the claim says flattening an unrecognized node "yields
the empty string and never fails", including "nodes lacking a tag entirely"
and "non-node leaf values"; in the code a dict without `'type'` raises
`KeyError` and a non-dict leaf returns `str(content)`, e.g. `"5"`. -/
theorem extract_text_malformed_counterexample :
    extract_text (JVal.obj [("foo", JVal.str "x")]) = Except.error (PyErr.keyError "type")
      ∧ extract_text (JVal.num 5) = Except.ok "5"
      ∧ extract_text (JVal.obj [("foo", JVal.str "x")]) ≠ Except.ok ""
      ∧ extract_text (JVal.num 5) ≠ Except.ok "" := by
  refine ⟨rfl, rfl, fun h => ?_, fun h => ?_⟩
  · rw [show extract_text (JVal.obj [("foo", JVal.str "x")])
        = Except.error (PyErr.keyError "type") from rfl] at h
    exact Except.noConfusion h
  · rw [show extract_text (JVal.num 5) = Except.ok "5" from rfl] at h
    have h5 : "5" = "" := by injection h
    exact absurd h5 (by decide)

/-- C7 (amended): a tagged node whose tag is present but not one of the
recognized types and that has no nested child sequence flattens to the empty
string; a node lacking a tag raises `KeyError` and a non-node leaf yields its
string rendering (see the counterexample). -/
theorem extract_text_unrecognized_tag_empty (fields : List (String × JVal)) (t : JVal)
    (hty : lookupField fields "type" = some t) (htag : isRecognizedTag t = false)
    (hco : lookupField fields "content" = none) :
    extract_text (JVal.obj fields) = Except.ok "" := by
  rw [extract_text_obj_some fields t hty]
  simp only [isRecognizedTag, Bool.or_eq_false_iff] at htag
  obtain ⟨⟨h1, h2⟩, h3⟩ := htag
  simp only [h1, h2, h3, Bool.false_eq_true, if_false]
  exact extract_content_of_no_content fields hco

/-- C7 witness: an unrecognized `panel` tag with no child sequence flattens to
the empty string. -/
theorem extract_text_unrecognized_tag_empty_witness :
    lookupField [("type", JVal.str "panel")] "type" = some (JVal.str "panel")
      ∧ isRecognizedTag (JVal.str "panel") = false
      ∧ lookupField [("type", JVal.str "panel")] "content" = none
      ∧ extract_text (JVal.obj [("type", JVal.str "panel")]) = Except.ok "" :=
  ⟨rfl, rfl, rfl, extract_text_unrecognized_tag_empty _ _ rfl rfl rfl⟩

/-- The five-comment collection of the spec's C4 example, oldest to newest. -/
def c4net : String → List JVal := fun _ =>
  [sampleComment "A1" "2024-01-01T03:00:00.000+0000" "b1",
   sampleComment "A2" "2024-01-02T03:00:00.000+0000" "b2",
   sampleComment "A3" "2024-01-03T03:00:00.000+0000" "b3",
   sampleComment "A4" "2024-01-04T03:00:00.000+0000" "b4",
   sampleComment "A5" "2024-01-05T03:00:00.000+0000" "b5"]

/-- C4: for a positive `RECENT_COMMENTS_COUNT` the resolver's window
`comments_data[-n:][::-1]` is exactly the trailing `n` entries of the
fetched order, reversed (newest first); in particular with `n = 3` and five
comments `[c1..c5]` (oldest to newest) the resolver returns the renderings
of `[c5, c4, c3]`. -/
theorem fetch_comments_trailing_window_newest_first :
    (∀ (n : Nat) (l : List JVal), 0 < n →
        (pyTakeLast n l).reverse = (l.drop (l.length - n)).reverse)
      ∧ fetch_comments 3 0 c4net [] "PROJ-1"
        = ([("PROJ-1",
            ["**[2024-01-05 03:00:00, A5]**\nb5",
             "**[2024-01-04 03:00:00, A4]**\nb4",
             "**[2024-01-03 03:00:00, A3]**\nb3"])], 1,
           Except.ok
            ["**[2024-01-05 03:00:00, A5]**\nb5",
             "**[2024-01-04 03:00:00, A4]**\nb4",
             "**[2024-01-03 03:00:00, A3]**\nb3"]) := by
  constructor
  · intro n l hn
    rw [pyTakeLast, if_neg (Nat.pos_iff_ne_zero.mp hn)]
  · rfl

/-- C4 witness: the window fact at `n = 3` on the example collection. -/
theorem fetch_comments_trailing_window_newest_first_witness :
    (pyTakeLast 3 (c4net "PROJ-1")).reverse
      = ((c4net "PROJ-1").drop ((c4net "PROJ-1").length - 3)).reverse :=
  fetch_comments_trailing_window_newest_first.1 3 (c4net "PROJ-1") (by decide)

/-- C5: whenever a resolution returns successfully, resolving the same key
again with the resulting cache performs no underlying fetch and returns
exactly the stored sequence, with the cache unchanged. -/
theorem fetch_comments_second_call_cached (n : Nat) (tz : Int)
    (net : String → List JVal) (cache cache' : Cache) (key : String) (m : Nat)
    (cs : List String)
    (h : fetch_comments n tz net cache key = (cache', m, Except.ok cs)) :
    fetch_comments n tz net cache' key = (cache', 0, Except.ok cs) := by
  unfold fetch_comments at h ⊢
  cases hl : cacheLookup cache key with
  | some cs0 =>
    rw [hl] at h
    simp only [Prod.mk.injEq, Except.ok.injEq] at h
    obtain ⟨hc, _, hcs⟩ := h
    subst hc
    subst hcs
    rw [hl]
  | none =>
    rw [hl] at h
    cases hp : processList tz ((pyTakeLast n (net key)).reverse) with
    | error e =>
      rw [hp] at h
      simp only [Prod.mk.injEq] at h
      exact absurd h.2.2 (by simp)
    | ok cs0 =>
      rw [hp] at h
      simp only [Prod.mk.injEq, Except.ok.injEq] at h
      obtain ⟨hc, _, hcs⟩ := h
      subst hcs
      rw [← hc]
      have hcl : cacheLookup (cacheInsert cache key cs0) key = some cs0 := by
        simp [cacheInsert, cacheLookup]
      rw [hcl]

/-- C5 witness: a concrete first call stores the sequence; the second call
performs zero fetches and returns it unchanged. -/
theorem fetch_comments_second_call_cached_witness :
    fetch_comments 3 0 c4net
        [("PROJ-1",
          ["**[2024-01-05 03:00:00, A5]**\nb5",
           "**[2024-01-04 03:00:00, A4]**\nb4",
           "**[2024-01-03 03:00:00, A3]**\nb3"])] "PROJ-1"
      = ([("PROJ-1",
          ["**[2024-01-05 03:00:00, A5]**\nb5",
           "**[2024-01-04 03:00:00, A4]**\nb4",
           "**[2024-01-03 03:00:00, A3]**\nb3"])], 0,
         Except.ok
          ["**[2024-01-05 03:00:00, A5]**\nb5",
           "**[2024-01-04 03:00:00, A4]**\nb4",
           "**[2024-01-03 03:00:00, A3]**\nb3"]) :=
  fetch_comments_second_call_cached 3 0 c4net [] _ "PROJ-1" 1 _ rfl

/-- A collection whose newest comment lacks the author field. -/
def c8net : String → List JVal := fun _ =>
  [sampleComment "G" "2024-03-01T12:00:00.000+0000" "g",
   JVal.obj [("created", JVal.str "2024-03-02T12:00:00.000+0000")]]

/-- C8: when every comment of the processed window either renders or fails
only by a missing required field (the caught `KeyError` class), and some
comment does lack a field, resolution does not abort: it succeeds with one
entry per processed comment, where a missing-field comment yields the
visible placeholder and a well-formed comment its normal rendering. -/
theorem fetch_comments_missing_field_placeholders (n : Nat) (tz : Int)
    (net : String → List JVal) (cache : Cache) (key : String)
    (hmiss : cacheLookup cache key = none)
    (hok : ∀ c ∈ (pyTakeLast n (net key)).reverse, isOkB (processComment tz c) = true)
    (_hsome : ∃ c ∈ (pyTakeLast n (net key)).reverse, isKeyErrB (tryRender tz c) = true) :
    fetch_comments n tz net cache key
      = (cacheInsert cache key (((pyTakeLast n (net key)).reverse).map (entryOf tz)), 1,
         Except.ok (((pyTakeLast n (net key)).reverse).map (entryOf tz)))
    ∧ (((pyTakeLast n (net key)).reverse).map (entryOf tz)).length
        = ((pyTakeLast n (net key)).reverse).length
    ∧ (∀ (c : JVal) (s : String), tryRender tz c = Except.ok s → entryOf tz c = s)
    ∧ (∀ (c : JVal) (k : String), tryRender tz c = Except.error (PyErr.keyError k) →
        entryOf tz c = "Error parsing comment: '" ++ k ++ "'") := by
  refine ⟨?_, List.length_map _ _, entryOf_of_tryRender_ok tz, entryOf_of_tryRender_keyError tz⟩
  unfold fetch_comments
  rw [hmiss, processList_all_ok tz _ hok]

/-- C8 witness: a window holding one well-formed comment and one lacking
`updateAuthor` resolves to the placeholder followed by the normal render. -/
theorem fetch_comments_missing_field_placeholders_witness :
    fetch_comments 5 0 c8net [] "K"
      = (cacheInsert [] "K" (((pyTakeLast 5 (c8net "K")).reverse).map (entryOf 0)), 1,
         Except.ok (((pyTakeLast 5 (c8net "K")).reverse).map (entryOf 0))) :=
  (fetch_comments_missing_field_placeholders 5 0 c8net [] "K" rfl (by decide) (by decide)).1

/-- A collection whose oldest comment has all required fields but an
unparseable timestamp, followed by three well-formed comments. -/
def c10net : String → List JVal := fun _ =>
  [JVal.obj [("created", JVal.str "bogus"),
     ("updateAuthor", JVal.obj [("displayName", JVal.str "B")]),
     ("body", JVal.obj [("content", JVal.str "bad")])],
   sampleComment "A1" "2024-03-01T12:00:00.000+0000" "x1",
   sampleComment "A2" "2024-03-02T12:00:00.000+0000" "x2",
   sampleComment "A3" "2024-03-03T12:00:00.000+0000" "x3"]

/-- C10 counterexample: the claim quantifies over every fetched collection
containing a comment with all fields present but an unparseable timestamp;
here such a comment exists (it fails with `ValueError`) yet it lies outside
the trailing `RECENT_COMMENTS_COUNT = 3` window, so resolution succeeds and
the cache does receive an entry — no error is raised. -/
theorem fetch_comments_bad_timestamp_outside_window_counterexample :
    isValueErrB (tryRender 0 (JVal.obj [("created", JVal.str "bogus"),
        ("updateAuthor", JVal.obj [("displayName", JVal.str "B")]),
        ("body", JVal.obj [("content", JVal.str "bad")])])) = true
      ∧ (JVal.obj [("created", JVal.str "bogus"),
          ("updateAuthor", JVal.obj [("displayName", JVal.str "B")]),
          ("body", JVal.obj [("content", JVal.str "bad")])]) ∈ c10net "K"
      ∧ fetch_comments 3 0 c10net [] "K"
        = ([("K",
            ["**[2024-03-03 12:00:00, A3]**\nx3",
             "**[2024-03-02 12:00:00, A2]**\nx2",
             "**[2024-03-01 12:00:00, A1]**\nx1"])], 1,
           Except.ok
            ["**[2024-03-03 12:00:00, A3]**\nx3",
             "**[2024-03-02 12:00:00, A2]**\nx2",
             "**[2024-03-01 12:00:00, A1]**\nx1"]) :=
  ⟨rfl, List.mem_cons_self _ _, rfl⟩

/-- C10 (amended): when a comment of the processed trailing window has all
required fields but an unparseable timestamp (its render fails with the
uncaught `ValueError`), resolution raises: the call returns an error and the
cache is unchanged (no entry is stored for the key). -/
theorem fetch_comments_bad_timestamp_raises (n : Nat) (tz : Int)
    (net : String → List JVal) (cache : Cache) (key : String)
    (hmiss : cacheLookup cache key = none)
    (hbad : ∃ c ∈ (pyTakeLast n (net key)).reverse, isValueErrB (tryRender tz c) = true) :
    ∃ e, fetch_comments n tz net cache key = (cache, 1, Except.error e) := by
  obtain ⟨c, hcmem, hcv⟩ := hbad
  obtain ⟨e, hpe⟩ := processList_error_of_mem tz _ c hcmem
    (processComment_error_of_valueErr tz c hcv)
  refine ⟨e, ?_⟩
  unfold fetch_comments
  rw [hmiss, hpe]

/-- C10 witness: a bad-timestamp comment inside the window makes the whole
resolution error out with the cache unchanged. -/
theorem fetch_comments_bad_timestamp_raises_witness :
    ∃ e, fetch_comments 3 0 (fun _ =>
        [sampleComment "A1" "2024-03-01T12:00:00.000+0000" "x1",
         JVal.obj [("created", JVal.str "bogus"),
           ("updateAuthor", JVal.obj [("displayName", JVal.str "B")]),
           ("body", JVal.obj [("content", JVal.str "bad")])]]) [] "K"
      = ([], 1, Except.error e) :=
  fetch_comments_bad_timestamp_raises 3 0 _ [] "K" rfl (by decide)

/-- C9: a rendered comment whose header timestamp parses is marked for
highlight exactly when the elapsed whole days from the timestamp to now
(`timedelta.days`, floor division by 86400 seconds) are at most
`HIGHLIGHT_DAYS`; a comment exactly `HIGHLIGHT_DAYS` days old is highlighted
and one exactly `HIGHLIGHT_DAYS + 1` days old is not. -/
theorem highlight_recency_boundary (now hlDays : Int) (c : String) (t : Int)
    (h : parseHeaderTime c = some t) :
    (highlightDecision now hlDays c = true ↔ Int.fdiv (now - t) 86400 ≤ hlDays)
      ∧ (now - t = hlDays * 86400 → highlightDecision now hlDays c = true)
      ∧ (now - t = (hlDays + 1) * 86400 → highlightDecision now hlDays c = false) := by
  have hd : highlightDecision now hlDays c = decide (Int.fdiv (now - t) 86400 ≤ hlDays) := by
    unfold highlightDecision
    rw [h]
  refine ⟨?_, ?_, ?_⟩
  · rw [hd]
    exact decide_eq_true_iff
  · intro he
    rw [hd, he, Int.mul_fdiv_cancel hlDays (by norm_num)]
    simp
  · intro he
    rw [hd, he, Int.mul_fdiv_cancel _ (by norm_num)]
    simp only [decide_eq_false_iff_not]
    omega

/-- C9 witness: with `HIGHLIGHT_DAYS = 7`, a comment dated 2024-01-08
00:00:00 is highlighted at now = 2024-01-15 00:00:00 (exactly 7 days). -/
theorem highlight_recency_boundary_witness :
    parseHeaderTime "**[2024-01-08 00:00:00, Bob]**\nhi" = some 1704672000
      ∧ highlightDecision 1705276800 7 "**[2024-01-08 00:00:00, Bob]**\nhi" = true :=
  ⟨by decide,
    (highlight_recency_boundary 1705276800 7 "**[2024-01-08 00:00:00, Bob]**\nhi"
      1704672000 (by decide)).2.1 (by decide)⟩

/-! ### Merge lemmas (towards C1-C3) -/

theorem overwriteRow_key (r n : Row) : (overwriteRow r n).key = r.key := rfl

theorem overwriteRow_twice (r n m : Row) :
    overwriteRow (overwriteRow r n) m = overwriteRow r m := rfl

theorem mergeRow_absorb (A : List Row) (n m : Row) (hm : m.key = n.key) :
    mergeRow (mergeRow A n) m = mergeRow A m := by
  induction A with
  | nil => simp [mergeRow, appendedRow, overwriteRow, hm]
  | cons x xs ih =>
    by_cases hx : x.key = n.key
    · have hx' : x.key = m.key := hx.trans hm.symm
      simp only [mergeRow, if_pos hx, if_pos hx', overwriteRow_key, overwriteRow_twice]
    · have hx' : x.key ≠ m.key := fun h => hx (h.trans hm)
      simp only [mergeRow, if_neg hx, if_neg hx']
      exact congrArg (x :: ·) (ih)

theorem mergeRow_mem_key (A : List Row) (n : Row) (k : String)
    (h : ∃ r ∈ A, r.key = k) : ∃ r ∈ mergeRow A n, r.key = k := by
  induction A with
  | nil =>
    obtain ⟨r, hr, _⟩ := h
    cases hr
  | cons x xs ih =>
    obtain ⟨r, hr, hrk⟩ := h
    by_cases hx : x.key = n.key
    · simp only [mergeRow, if_pos hx]
      rcases List.mem_cons.mp hr with rfl | hmem
      · exact ⟨overwriteRow r n, List.mem_cons_self _ _, by rw [overwriteRow_key]; exact hrk⟩
      · exact ⟨r, List.mem_cons_of_mem _ hmem, hrk⟩
    · simp only [mergeRow, if_neg hx]
      rcases List.mem_cons.mp hr with rfl | hmem
      · exact ⟨r, List.mem_cons_self _ _, hrk⟩
      · obtain ⟨r', hr', hrk'⟩ := ih ⟨r, hmem, hrk⟩
        exact ⟨r', List.mem_cons_of_mem _ hr', hrk'⟩

theorem mergeRow_self_key (A : List Row) (n : Row) :
    ∃ r ∈ mergeRow A n, r.key = n.key := by
  induction A with
  | nil => exact ⟨appendedRow n, List.mem_cons_self _ _, rfl⟩
  | cons x xs ih =>
    by_cases hx : x.key = n.key
    · simp only [mergeRow, if_pos hx]
      exact ⟨overwriteRow x n, List.mem_cons_self _ _, by rw [overwriteRow_key, hx]⟩
    · simp only [mergeRow, if_neg hx]
      obtain ⟨r, hr, hrk⟩ := ih
      exact ⟨r, List.mem_cons_of_mem _ hr, hrk⟩

theorem mergeRow_comm (A : List Row) (n m : Row) (hkey : ∃ r ∈ A, r.key = n.key)
    (hmn : m.key ≠ n.key) :
    mergeRow (mergeRow A n) m = mergeRow (mergeRow A m) n := by
  induction A with
  | nil =>
    obtain ⟨r, hr, _⟩ := hkey
    cases hr
  | cons x xs ih =>
    by_cases hxn : x.key = n.key
    · have hxm : x.key ≠ m.key := fun h => hmn (h ▸ hxn)
      simp only [mergeRow, if_pos hxn, if_neg hxm, overwriteRow_key]
    · by_cases hxm : x.key = m.key
      · simp only [mergeRow, if_neg hxn, if_pos hxm, overwriteRow_key]
      · have hkey' : ∃ r ∈ xs, r.key = n.key := by
          obtain ⟨r, hr, hrk⟩ := hkey
          rcases List.mem_cons.mp hr with rfl | hmem
          · exact absurd hrk hxn
          · exact ⟨r, hmem, hrk⟩
        simp only [mergeRow, if_neg hxn, if_neg hxm]
        exact congrArg (x :: ·) (ih hkey')

theorem mergeRow_length_of_none (A : List Row) (n : Row)
    (h : ∀ r ∈ A, r.key ≠ n.key) : (mergeRow A n).length = A.length + 1 := by
  induction A with
  | nil => rfl
  | cons x xs ih =>
    have hx := h x (List.mem_cons_self x xs)
    simp only [mergeRow, if_neg hx, List.length_cons]
    rw [ih (fun y hy => h y (List.mem_cons_of_mem x hy))]

theorem mergeRow_fixed_mem (A : List Row) (n : Row) (h : mergeRow A n = A) :
    ∃ r ∈ A, r.key = n.key := by
  by_contra hc
  push_neg at hc
  have hlen := mergeRow_length_of_none A n hc
  rw [h] at hlen
  omega

theorem foldl_merge_mem_key (ns : List Row) (u : List Row) (k : String)
    (h : ∃ r ∈ u, r.key = k) : ∃ r ∈ List.foldl mergeRow u ns, r.key = k := by
  induction ns generalizing u with
  | nil => exact h
  | cons n rest ih => exact ih (mergeRow u n) (mergeRow_mem_key u n k h)

theorem foldl_merge_fixed (ns : List Row) (u : List Row) (n : Row)
    (hu : mergeRow u n = u) (hns : ∀ m ∈ ns, m.key ≠ n.key) :
    mergeRow (List.foldl mergeRow u ns) n = List.foldl mergeRow u ns := by
  induction ns generalizing u with
  | nil => exact hu
  | cons m rest ih =>
    simp only [List.foldl_cons]
    refine ih (mergeRow u m) ?_ (fun x hx => hns x (List.mem_cons_of_mem m hx))
    have hkey := mergeRow_fixed_mem u n hu
    have hmn := hns m (List.mem_cons_self m rest)
    calc mergeRow (mergeRow u m) n
        = mergeRow (mergeRow u n) m := (mergeRow_comm u n m hkey hmn).symm
      _ = mergeRow u m := by rw [hu]

theorem foldl_merge_dup (ns : List Row) (A : List Row) (n : Row)
    (hkey : ∃ r ∈ A, r.key = n.key) (hdup : ∃ m ∈ ns, m.key = n.key) :
    List.foldl mergeRow (mergeRow A n) ns = List.foldl mergeRow A ns := by
  induction ns generalizing A with
  | nil =>
    obtain ⟨m, hm, _⟩ := hdup
    cases hm
  | cons m rest ih =>
    simp only [List.foldl_cons]
    by_cases hmn : m.key = n.key
    · rw [mergeRow_absorb A n m hmn]
    · have hdup' : ∃ x ∈ rest, x.key = n.key := by
        obtain ⟨x, hx, hxk⟩ := hdup
        rcases List.mem_cons.mp hx with rfl | hmem
        · exact absurd hxk hmn
        · exact ⟨x, hmem, hxk⟩
      rw [mergeRow_comm A n m hkey hmn]
      exact ih (mergeRow A m) (mergeRow_mem_key A m n.key hkey) hdup'

/-- Convenient constructor for concrete rows. -/
def mkRow (k s a st p u cat g c rem : String) : Row :=
  ⟨k, s, a, st, p, u, cat, g, c, rem⟩

/-- C1: merging a new row whose key matches an existing row (the first such
row in scan order) overwrites that row's summary, assignee, status,
priority, timestamp, category, gerrit and combined-comment columns with the
new values, keeps its key and its remark, and leaves every other row
untouched. -/
theorem mergeRow_found_overwrites_except_remark (pre post : List Row) (r new : Row)
    (hpre : ∀ x ∈ pre, x.key ≠ new.key) (hr : r.key = new.key) :
    mergeRow (pre ++ r :: post) new
      = pre ++ Row.mk r.key new.summary new.assignee new.rowStatus new.priority
          new.updateTime new.category new.gerritId new.comments r.remark :: post := by
  induction pre with
  | nil =>
    simp only [List.nil_append]
    simp only [mergeRow, if_pos hr]
    rfl
  | cons x xs ih =>
    have hx : x.key ≠ new.key := hpre x (List.mem_cons_self x xs)
    simp only [List.cons_append, mergeRow, if_neg hx]
    exact congrArg (x :: ·) (ih fun y hy => hpre y (List.mem_cons_of_mem x hy))

/-- C1 witness: merging an update for "B" into a table `[A, B(old), C]`
overwrites B's data columns, keeps its remark "keep me", and leaves A and C
unchanged. -/
theorem mergeRow_found_overwrites_except_remark_witness :
    (∀ x ∈ [mkRow "A" "sa" "pa" "oa" "la" "ta" "ca" "ga" "ma" "ra"],
        Row.key x ≠ "B")
      ∧ mergeRow
          [mkRow "A" "sa" "pa" "oa" "la" "ta" "ca" "ga" "ma" "ra",
           mkRow "B" "s0" "p0" "o0" "l0" "t0" "c0" "g0" "m0" "keep me",
           mkRow "C" "sc" "pc" "oc" "lc" "tc" "cc" "gc" "mc" "rc"]
          (mkRow "B" "s1" "p1" "o1" "l1" "t1" "c1" "g1" "m1" "")
        = [mkRow "A" "sa" "pa" "oa" "la" "ta" "ca" "ga" "ma" "ra",
           mkRow "B" "s1" "p1" "o1" "l1" "t1" "c1" "g1" "m1" "keep me",
           mkRow "C" "sc" "pc" "oc" "lc" "tc" "cc" "gc" "mc" "rc"] :=
  ⟨by decide,
    mergeRow_found_overwrites_except_remark
      [mkRow "A" "sa" "pa" "oa" "la" "ta" "ca" "ga" "ma" "ra"]
      [mkRow "C" "sc" "pc" "oc" "lc" "tc" "cc" "gc" "mc" "rc"]
      (mkRow "B" "s0" "p0" "o0" "l0" "t0" "c0" "g0" "m0" "keep me")
      (mkRow "B" "s1" "p1" "o1" "l1" "t1" "c1" "g1" "m1" "")
      (by decide) rfl⟩

/-- C2: merging a new row whose key matches no existing row appends it at
the end with an empty remark column and leaves every existing row
unchanged. -/
theorem mergeRow_not_found_appends (table : List Row) (new : Row)
    (hno : ∀ x ∈ table, x.key ≠ new.key) :
    mergeRow table new
      = table ++ [Row.mk new.key new.summary new.assignee new.rowStatus new.priority
          new.updateTime new.category new.gerritId new.comments ""] := by
  induction table with
  | nil => rfl
  | cons x xs ih =>
    have hx : x.key ≠ new.key := hno x (List.mem_cons_self x xs)
    simp only [mergeRow, if_neg hx, List.cons_append]
    exact congrArg (x :: ·) (ih fun y hy => hno y (List.mem_cons_of_mem x hy))

/-- C2 witness: merging a fresh "Y" row into `[A]` appends it with an empty
remark and does not alter `A`. -/
theorem mergeRow_not_found_appends_witness :
    (∀ x ∈ [mkRow "A" "sa" "pa" "oa" "la" "ta" "ca" "ga" "ma" "ra"],
        Row.key x ≠ "Y")
      ∧ mergeRow [mkRow "A" "sa" "pa" "oa" "la" "ta" "ca" "ga" "ma" "ra"]
          (mkRow "Y" "sy" "py" "oy" "ly" "ty" "cy" "gy" "my" "ignored")
        = [mkRow "A" "sa" "pa" "oa" "la" "ta" "ca" "ga" "ma" "ra",
           mkRow "Y" "sy" "py" "oy" "ly" "ty" "cy" "gy" "my" ""] :=
  ⟨by decide,
    mergeRow_not_found_appends
      [mkRow "A" "sa" "pa" "oa" "la" "ta" "ca" "ga" "ma" "ra"]
      (mkRow "Y" "sy" "py" "oy" "ly" "ty" "cy" "gy" "my" "ignored")
      (by decide)⟩

/-- C3: for every initial table and every list of new rows, running the
merge twice with the same new rows yields the same table as running it
once. -/
theorem mergeRows_idempotent (table news : List Row) :
    mergeRows (mergeRows table news) news = mergeRows table news := by
  unfold mergeRows
  induction news generalizing table with
  | nil => rfl
  | cons n rest ih =>
    simp only [List.foldl_cons]
    have hAfix := ih (mergeRow table n)
    have hkeyA : ∃ r ∈ List.foldl mergeRow (mergeRow table n) rest, r.key = n.key :=
      foldl_merge_mem_key rest (mergeRow table n) n.key (mergeRow_self_key table n)
    by_cases hc : ∃ m ∈ rest, m.key = n.key
    · rw [foldl_merge_dup rest _ n hkeyA hc, hAfix]
    · push_neg at hc
      have hfix := foldl_merge_fixed rest (mergeRow table n) n
        (mergeRow_absorb table n n rfl) hc
      rw [hfix, hAfix]

end JiraMonitor
